import Mathlib

/-!
Verification of the Battery Analytics Dashboard aggregator (src/dash.py).

The dashboard script loads a CSV into a pandas DataFrame and derives four
kinds of views: per-battery SOH series (plot 1), a Pearson correlation
matrix over four numeric signals (plot 2), per-battery SOH distribution
curves (plot 3), and cycle-binned time-averaged signal series
(plots 4 to 6).  This file gives a shallow embedding of those
transformations and proves or refutes the specified properties.

Two complementary models are used:

* an untyped column-oriented frame (a list of named columns of cells),
  mirroring how pandas resolves columns by string name and how dtype
  decides numeric-only operations; and
* a typed row model for the cycle-binning pipeline, where the code
  assumes an integer cycle column (Python range would reject floats).
-/

/-- Cell of a pandas column.  A CSV loader produces numeric cells for a
numeric dtype column and string cells for an object dtype column; a
column containing any non-coercible value is an object column, i.e. it
contains a string cell.  Interval cells arise only from the derived
cycle_bin column produced by pd.cut, and nan marks a value pd.cut could
not assign to any bin. -/
inductive Val where
  | num (q : ℚ)
  | str (s : String)
  | interval (lo hi : ℤ)
  | nan
deriving DecidableEq

/-- Column of a DataFrame: the ordered cells of one named column. -/
abbrev Column := List Val

/-- Column-oriented DataFrame: named columns in order.  Row i of the
frame is the i-th cell of each column. -/
abbrev DataFrame := List (String × Column)

/-- Error taxonomy of the specification (section 7).  The script itself
surfaces pandas KeyError for an absent column, which carries the column
name; missingColumn models exactly that.  invalidData models a pandas
TypeError raised when an operation needs numeric cells.  The remaining
constructors exist so that the specified error behaviour is statable. -/
inductive AggError where
  | missingColumn (name : String)
  | invalidData (name : String)
  | insufficientData (name : String)
  | emptyDataset
deriving DecidableEq

/-- Column lookup by name, as in df[name] (src/dash.py line 124 etc.). -/
def getCol (df : DataFrame) (name : String) : Option Column :=
  (df.find? fun p => p.1 == name).map Prod.snd

/-- Column access that fails like df[name] does on an absent column:
pandas raises KeyError naming the column. -/
def requireCol (df : DataFrame) (name : String) : Except AggError Column :=
  match getCol df name with
  | some c => .ok c
  | none => .error (.missingColumn name)

/-- Read a column as numeric values; succeeds exactly when every cell is
numeric, i.e. when the column has a numeric dtype. -/
def asNums : Column → Option (List ℚ)
  | [] => some []
  | .num q :: l => (asNums l).map fun r => q :: r
  | _ => none

/-- Numeric cells of a column, in order.  On a numeric dtype column this
is all of its values. -/
def numsOnly (c : Column) : List ℚ :=
  c.filterMap fun v => match v with | .num q => some q | _ => none

/-- Deduplication keeping the first occurrence of each value, with a
seen accumulator: the semantics of pandas Series.unique
(src/dash.py line 124), whose result is ordered by first appearance. -/
def uniqueAux {α : Type} [DecidableEq α] (acc : List α) : List α → List α
  | [] => acc
  | a :: l => if a ∈ acc then uniqueAux acc l else uniqueAux (acc ++ [a]) l

/-- Distinct values of a list in order of first appearance, as produced
by df[col].unique(). -/
def uniqueFirst {α : Type} [DecidableEq α] (l : List α) : List α :=
  uniqueAux [] l

/-! ### Plot 1: per-battery series extraction (src/dash.py lines 124, 130 to 135) -/

/-- Per-battery series extraction.  The script reads
batteries = df[battery].unique() (line 124) and then draws
px.line(df, x = cycle, y = SOH, color = battery) with
category_orders given by that sequence (lines 130 to 133): for each
distinct battery, in first-appearance order, the (cycle, SOH) pairs of
its rows in dataset order.  Column accesses that fail raise KeyError
naming the column, modelled by missingColumn. -/
def seriesExtract (df : DataFrame) :
    Except AggError (List (Val × List (Val × Val))) :=
  match getCol df "battery" with
  | none => .error (.missingColumn "battery")
  | some bc =>
    match getCol df "cycle" with
    | none => .error (.missingColumn "cycle")
    | some cc =>
      match getCol df "SOH" with
      | none => .error (.missingColumn "SOH")
      | some sc =>
        .ok ((uniqueFirst bc).map fun b =>
          (b, ((bc.zip (cc.zip sc)).filter fun r => r.1 == b).map Prod.snd))

/-! ### Battery colour assignment (src/dash.py lines 125 to 126) -/

/-- Fixed colour palette, line 125 of the script. -/
def dark_mode_colors : List String :=
  ["#1f77b4", "#ff7f0e", "#2ca02c", "#d62728", "#9467bd",
   "#8c564b", "#e377c2", "#7f7f7f", "#bcbd22", "#17becf"]

/-- The dict comprehension of line 126: the i-th distinct battery is
bound to dark_mode_colors[i mod 10]. -/
def battery_color_map (bs : List Val) : List (Val × String) :=
  bs.enum.map fun p => (p.2, dark_mode_colors.getD (p.1 % dark_mode_colors.length) "")

/-- Colour looked up for one battery in the shared map; both plot 1
(color_discrete_map, line 131) and plot 3 (lines 152, 157 to 158) use
this same dict. -/
def colorOf (bs : List Val) (b : Val) : String :=
  ((battery_color_map bs).lookup b).getD ""

/-! ### Plot 3: per-battery SOH distribution estimate
(src/dash.py lines 149 to 158)

The script builds hist_data = [df[df.battery == b].SOH for b in
batteries] and calls ff.create_distplot with curve_type normal and
show_hist and show_rug off.  For each group, plotly fits a normal by
its sample mean and population standard deviation (numpy semantics,
denominator n) and evaluates the normal pdf on a 500 point grid; the
grid and the pdf constant are irrelevant to the claims, so a trace is
summarised by its battery, its colour, and the fitted mean and
variance.  When the standard deviation is zero (in particular for a
group with fewer than two observations) the scipy pdf is undefined
(division by zero scale yields nan values), which is exactly the case
variance = 0 of a trace; no exception is raised and no per-battery
error value exists anywhere in the output. -/

/-- Sample mean with numpy conventions (sum over n).  In ℚ the empty
case gives 0/0 = 0; the script never reaches it because every battery
in the unique list has at least one row. -/
def npMean (xs : List ℚ) : ℚ := xs.sum / xs.length

/-- Population variance (numpy std squared, denominator n). -/
def npVar (xs : List ℚ) : ℚ :=
  ((xs.map fun x => (x - npMean xs) ^ 2).sum) / xs.length

/-- SOH values of one battery: the SOH cells of the rows whose battery
cell equals b, in dataset order.  The claims concern numeric SOH
columns, whose cells are all numeric. -/
def sohOf (bc sc : Column) (b : Val) : List ℚ :=
  numsOnly (((bc.zip sc).filter fun p => p.1 == b).map Prod.snd)

/-- One curve of the distribution plot. -/
structure DistTrace where
  battery : Val
  color : String
  mean : ℚ
  variance : ℚ
deriving DecidableEq

/-- The distribution-estimate view: one normal-fit trace per distinct
battery, coloured through battery_color_map.  The whole plot is one
create_distplot call; there is no per-battery error handling in the
script, so the only failures are the KeyErrors of the column reads
(line 124 for battery, line 149 for SOH). -/
def distEstimate (df : DataFrame) : Except AggError (List DistTrace) :=
  match getCol df "battery" with
  | none => .error (.missingColumn "battery")
  | some bc =>
    match getCol df "SOH" with
    | none => .error (.missingColumn "SOH")
    | some sc =>
      .ok ((uniqueFirst bc).map fun b =>
        ⟨b, colorOf (uniqueFirst bc) b,
         npMean (sohOf bc sc b), npVar (sohOf bc sc b)⟩)

/-! ### Plot 2: correlation matrix (src/dash.py line 141)

corr_matrix = temp[[voltage_measured, current_measured,
temperature_measured, SOH]].corr(numeric_only=True).  The column
selection raises KeyError if a name is absent; numeric_only=True then
silently restricts the matrix to the numeric dtype columns among the
four.  Each retained pair gets the Pearson coefficient; a zero
variance column yields NaN entries (0/0), modelled as none. -/

/-- The four columns selected for the correlation heatmap, in source
order. -/
def corrNames : List String :=
  ["voltage_measured", "current_measured", "temperature_measured", "SOH"]

/-- A named column viewed as numeric data, when its dtype is numeric. -/
def numView (df : DataFrame) (name : String) : Option (List ℚ) :=
  (getCol df name).bind asNums

/-- Column selection step of line 141: KeyError (naming the first
absent column) if any of the four is missing, then the numeric-only
restriction keeps, in order, the numeric columns with their values. -/
def corrSelect (df : DataFrame) : Except AggError (List (String × List ℚ)) :=
  match corrNames.find? (fun n => (getCol df n).isNone) with
  | some n => .error (.missingColumn n)
  | none => .ok (corrNames.filterMap fun n => (numView df n).map fun q => (n, q))

/-- Mean of a real column. -/
noncomputable def colMean (xs : List ℝ) : ℝ := xs.sum / xs.length

/-- Sum of squared deviations of a column from its mean (the variance
numerator; shared scaling cancels in the Pearson ratio). -/
noncomputable def sqDev (xs : List ℝ) : ℝ :=
  ∑ i ∈ Finset.range xs.length, (xs.getD i 0 - colMean xs) ^ 2

/-- Sum of products of paired deviations (the covariance numerator). -/
noncomputable def crossDev (xs ys : List ℝ) : ℝ :=
  ∑ i ∈ Finset.range (min xs.length ys.length),
    (xs.getD i 0 - colMean xs) * (ys.getD i 0 - colMean ys)

open Classical in
/-- Pearson correlation of two columns, as pandas corr computes it:
covariance over the product of standard deviations.  When either
column has zero variance the float computation is 0/0 = NaN, modelled
as none. -/
noncomputable def pearson (xs ys : List ℝ) : Option ℝ :=
  if sqDev xs = 0 ∨ sqDev ys = 0 then none
  else some (crossDev xs ys / (Real.sqrt (sqDev xs) * Real.sqrt (sqDev ys)))

/-- Rational column values as reals. -/
noncomputable def ratCol (q : List ℚ) : List ℝ := q.map fun a => (a : ℝ)

/-- The correlation matrix over the selected numeric columns. -/
noncomputable def corrMatrix (cols : List (List ℚ)) : List (List (Option ℝ)) :=
  cols.map fun x => cols.map fun y => pearson (ratCol x) (ratCol y)

/-- Entry (i, j) of the correlation matrix, when both indices are in
range. -/
noncomputable def corrEntry (cols : List (List ℚ)) (i j : ℕ) : Option (Option ℝ) :=
  ((corrMatrix cols)[i]?).bind fun row => row[j]?

/-! ### Plots 4 to 6: cycle-binned time aggregation
(src/dash.py lines 172 to 179, repeated at 187 to 194 and 202 to 209)

x = temp[(temp.cycle >= 0) & (temp.cycle <= temp.cycle.max())];
max_cycle = x.cycle.max(); step_size = max(1, max_cycle // num_bins);
bin_edges = range(0, max_cycle + step_size, step_size);
x.cycle_bin = pd.cut(x.cycle, bins=bin_edges, right=False);
aggregated_data = x.groupby([cycle_bin, time], as_index=False,
observed=True)[var].mean().

The script fixes num_bins = 10; the definitions keep it as a
parameter, as the spec generalises to any fixed_count policy.  Python
range requires integer arguments, so the cycle column is integer
valued; the typed row model below carries cycle as ℤ and the time and
signal values as ℚ. -/

/-- One row of the binning pipeline: its cycle, its timestamp and the
value of the signal being aggregated. -/
structure BRow where
  cycle : ℤ
  time : ℚ
  value : ℚ
deriving DecidableEq

/-- Python range(start, stop, step) for a positive step: the
arithmetic progression from start with the given step, of length
ceil((stop - start) / step) when positive. -/
def pyRange (start stop step : ℤ) : List ℤ :=
  (List.range ((stop - start + step - 1) / step).toNat).map fun i => start + step * i

/-- step_size = max(1, max_cycle // num_bins) (line 176).  Python
floor division agrees with Lean Int division here because max_cycle is
nonnegative and num_bins positive. -/
def step_size (max_cycle num_bins : ℤ) : ℤ := max 1 (max_cycle / num_bins)

/-- bin_edges = range(0, max_cycle + step_size, step_size) (line 177). -/
def bin_edges (max_cycle num_bins : ℤ) : List ℤ :=
  pyRange 0 (max_cycle + step_size max_cycle num_bins) (step_size max_cycle num_bins)

/-- The half-open intervals [e i, e (i+1)) that pd.cut builds from
consecutive bin edges with right=False (line 178). -/
def binIntervals (max_cycle num_bins : ℤ) : List (ℤ × ℤ) :=
  (bin_edges max_cycle num_bins).zip (bin_edges max_cycle num_bins).tail

/-- pd.cut assignment of one cycle value: the interval containing it
by left-inclusive right-exclusive membership, or none (NaN) when no
interval contains it. -/
def cutBin (max_cycle num_bins v : ℤ) : Option (ℤ × ℤ) :=
  (binIntervals max_cycle num_bins).find? fun e =>
    decide (e.1 ≤ v) && decide (v < e.2)

/-- The row filter of line 174: rows with 0 <= cycle <= max over the
whole frame.  An empty frame has no maximum (pandas NaN) and the mask
keeps nothing. -/
def filterCycles (rows : List BRow) : List BRow :=
  match (rows.map BRow.cycle).max? with
  | none => []
  | some m => rows.filter fun r => decide (0 ≤ r.cycle) && decide (r.cycle ≤ m)

/-- max_cycle of line 175: the maximum cycle of the filtered rows. -/
def maxCycle (rows : List BRow) : Option ℤ := (rows.map BRow.cycle).max?

/-- Rows that received a bin, keyed by (cycle_bin, time), carrying the
signal value.  groupby drops rows whose key contains NaN, i.e. rows
pd.cut left unassigned. -/
def keyedOf (rows : List BRow) (max_cycle num_bins : ℤ) :
    List (((ℤ × ℤ) × ℚ) × ℚ) :=
  rows.filterMap fun r =>
    (cutBin max_cycle num_bins r.cycle).map fun b => ((b, r.time), r.value)

/-- Arithmetic mean of the signal values of one group. -/
def groupMean (ps : List (((ℤ × ℤ) × ℚ) × ℚ)) : ℚ :=
  (ps.map Prod.snd).sum / ps.length

/-- Lexicographic order on group keys: bin interval (lower then upper
edge) then time: the sort order pandas groupby applies to its keys. -/
def keyLE (k1 k2 : (ℤ × ℤ) × ℚ) : Bool :=
  if k1.1.1 ≠ k2.1.1 then decide (k1.1.1 < k2.1.1)
  else if k1.1.2 ≠ k2.1.2 then decide (k1.1.2 < k2.1.2)
  else decide (k1.2 ≤ k2.2)

/-- Insertion into a keyLE-sorted key list. -/
def insertKey (a : (ℤ × ℤ) × ℚ) : List ((ℤ × ℤ) × ℚ) → List ((ℤ × ℤ) × ℚ)
  | [] => [a]
  | b :: l => if keyLE a b then a :: b :: l else b :: insertKey a l

/-- Insertion sort of group keys by keyLE. -/
def sortKeys : List ((ℤ × ℤ) × ℚ) → List ((ℤ × ℤ) × ℚ)
  | [] => []
  | a :: l => insertKey a (sortKeys l)

/-- The groupby([cycle_bin, time], observed=True)[var].mean() of line
179: one output row per observed (bin, time) key, in sorted key
order, carrying the mean of the signal over that group. -/
def aggRows (rows : List BRow) (max_cycle num_bins : ℤ) :
    List ((((ℤ × ℤ) × ℚ)) × ℚ) :=
  (sortKeys (uniqueFirst ((keyedOf rows max_cycle num_bins).map Prod.fst))).map
    fun k => (k, groupMean ((keyedOf rows max_cycle num_bins).filter fun p => p.1 == k))

/-- The whole binned aggregation of one plot, over the typed rows of
the frame: filter the cycle range, take the maximum cycle (failing on
an empty filtered frame, where the script would die on NaN), then
aggregate. -/
def binAggregate (rows : List BRow) (num_bins : ℤ) :
    Except AggError (List ((((ℤ × ℤ) × ℚ)) × ℚ)) :=
  match maxCycle (filterCycles rows) with
  | none => .error .emptyDataset
  | some m => .ok (aggRows (filterCycles rows) m num_bins)

/-! ### Frame-level script run (src/dash.py lines 78 to 213)

The script binds temp = df.copy() (line 79) and never writes to df or
temp afterwards; the only column mutation in the script is
x.cycle_bin = pd.cut(...) (lines 178, 193, 208), where x is a fresh
filtered copy of temp.  The state record below carries the three frame
variables of the script; running the six plots threads it through. -/

/-- Keep the rows of a column selected by a boolean mask. -/
def maskList {α : Type} (mask : List Bool) (l : List α) : List α :=
  ((mask.zip l).filter fun p => p.1).map Prod.snd

/-- Row selection on a frame: every column filtered by the same mask,
as df[mask] does. -/
def maskRows (mask : List Bool) (df : DataFrame) : DataFrame :=
  df.map fun p => (p.1, maskList mask p.2)

/-- Column assignment x[name] = c: replace the column if the name
exists, else append it. -/
def addColumn (df : DataFrame) (name : String) (c : Column) : DataFrame :=
  if name ∈ df.map Prod.fst then
    df.map fun p => if p.1 == name then (p.1, c) else p
  else df ++ [(name, c)]

/-- Integer values of a column; the binning comparisons and Python
range demand an integer cycle column, anything else raising a
TypeError, modelled as invalidData. -/
def intCells : Column → Option (List ℤ)
  | [] => some []
  | .num q :: l => if q.den = 1 then (intCells l).map fun r => q.num :: r else none
  | _ => none

/-- Read a column as integers or fail like the TypeError would. -/
def toInts (name : String) (c : Column) : Except AggError (List ℤ) :=
  match intCells c with
  | some z => .ok z
  | none => .error (.invalidData name)

/-- Read a column as numerics or fail like the TypeError would. -/
def toNums (name : String) (c : Column) : Except AggError (List ℚ) :=
  match asNums c with
  | some q => .ok q
  | none => .error (.invalidData name)

/-- One binned plot (lines 172 to 181 and their two repetitions) at
the frame level: compute the aggregated data and the frame x that
received the derived cycle_bin column.  Only x is written; temp is
read. -/
def plot4 (temp : DataFrame) (var : String) :
    Except AggError ((List ((((ℤ × ℤ) × ℚ)) × ℚ)) × DataFrame) :=
  match getCol temp "cycle" with
  | none => .error (.missingColumn "cycle")
  | some cyc =>
    match getCol temp "time" with
    | none => .error (.missingColumn "time")
    | some tim =>
      match getCol temp var with
      | none => .error (.missingColumn var)
      | some sig =>
        match toInts "cycle" cyc with
        | .error e => .error e
        | .ok cz =>
          match toNums "time" tim with
          | .error e => .error e
          | .ok tq =>
            match toNums var sig with
            | .error e => .error e
            | .ok sq =>
              match cz.max? with
              | none => .error .emptyDataset
              | some m0 =>
                let mask := cz.map fun c => decide (0 ≤ c) && decide (c ≤ m0)
                let czf := maskList mask cz
                match czf.max? with
                | none => .error .emptyDataset
                | some m =>
                  let binCells := czf.map fun c =>
                    match cutBin m 10 c with
                    | some b => Val.interval b.1 b.2
                    | none => Val.nan
                  let rows := (czf.zip ((maskList mask tq).zip (maskList mask sq))).map
                    fun p => BRow.mk p.1 p.2.1 p.2.2
                  .ok (aggRows rows m 10,
                       addColumn (maskRows mask temp) "cycle_bin" binCells)

/-- The frame variables of the script after a run. -/
structure DashState where
  df : DataFrame
  temp : DataFrame
  x : DataFrame

/-- The six derived views of one run. -/
structure DashOut where
  series : List (Val × List (Val × Val))
  corr : List (String × List ℚ)
  dist : List DistTrace
  aggTemperature : List ((((ℤ × ℤ) × ℚ)) × ℚ)
  aggCurrent : List ((((ℤ × ℤ) × ℚ)) × ℚ)
  aggVoltage : List ((((ℤ × ℤ) × ℚ)) × ℚ)

/-- One full run of the analysis section of the script: temp is a copy
of df (line 79); plots 1 and 3 read df, plots 2 and 4 to 6 read temp;
the x frame is rebuilt by each binned plot and is the only frame ever
written.  The final state returns the three frame variables. -/
def runDash (input : DataFrame) : Except AggError (DashOut × DashState) :=
  let df := input
  let temp := df
  match seriesExtract df with
  | .error e => .error e
  | .ok s1 =>
    match corrSelect temp with
    | .error e => .error e
    | .ok c2 =>
      match distEstimate df with
      | .error e => .error e
      | .ok d3 =>
        match plot4 temp "temperature_measured" with
        | .error e => .error e
        | .ok a4 =>
          match plot4 temp "current_measured" with
          | .error e => .error e
          | .ok a5 =>
            match plot4 temp "voltage_measured" with
            | .error e => .error e
            | .ok a6 =>
              .ok (⟨s1, c2, d3, a4.1, a5.1, a6.1⟩, ⟨df, temp, a6.2⟩)

/-! ### Concrete frames used by the witnesses and counterexamples -/

/-- Frame with two batteries for the series-extraction witness. -/
def dfC3 : DataFrame :=
  [("battery", [.str "B1", .str "B2", .str "B1"]),
   ("cycle", [.num 0, .num 0, .num 1]),
   ("SOH", [.num 100, .num 99, .num 98])]

/-- Frame with all four numeric correlation columns. -/
def dfC5 : DataFrame :=
  [("voltage_measured", [.num 1, .num 2]),
   ("current_measured", [.num 2, .num 1]),
   ("temperature_measured", [.num 3, .num 5]),
   ("SOH", [.num 1, .num 4])]

/-- The selection corrSelect computes on dfC5. -/
def selC5 : List (String × List ℚ) :=
  [("voltage_measured", [1, 2]),
   ("current_measured", [2, 1]),
   ("temperature_measured", [3, 5]),
   ("SOH", [1, 4])]

/-- Frame whose SOH column is present but non-numeric (object dtype). -/
def dfC6 : DataFrame :=
  [("voltage_measured", [.num 1, .num 2]),
   ("current_measured", [.num 2, .num 1]),
   ("temperature_measured", [.num 3, .num 5]),
   ("SOH", [.str "bad", .str "x"])]

/-- The numeric-only selection of a frame: what corrSelect keeps when
all four columns are present. -/
def corrKept (df : DataFrame) : List (String × List ℚ) :=
  corrNames.filterMap fun n => (numView df n).map fun q => (n, q)

/-- Frame lacking the SOH column. -/
def dfC7 : DataFrame :=
  [("battery", [.str "B1"]), ("cycle", [.num 0])]

/-- Frame where battery A has one SOH observation and battery B two. -/
def dfC8 : DataFrame :=
  [("battery", [.str "A", .str "B", .str "B"]),
   ("SOH", [.num 5, .num 1, .num 3])]

/-- Full well-formed frame for the run-level witness; note its maximum
cycle 10 is a multiple of the step. -/
def dfC9 : DataFrame :=
  [("battery", [.str "B1", .str "B2"]),
   ("cycle", [.num 0, .num 10]),
   ("time", [.num 0, .num 1]),
   ("voltage_measured", [.num 3, .num 4]),
   ("current_measured", [.num 1, .num 2]),
   ("temperature_measured", [.num 20, .num 25]),
   ("SOH", [.num 100, .num 90])]

/-- Rows whose maximum cycle 10 is a positive multiple of the computed
step 1, exhibiting the boundary-row drop. -/
def rowsC1 : List BRow := [⟨0, 0, 1⟩, ⟨10, 0, 2⟩]

/-- Rows whose observed cycles span 0 through 97, the worked example of
the spec. -/
def rowsC2 : List BRow := [⟨0, 0, 1⟩, ⟨42, 0, 2⟩, ⟨97, 0, 3⟩]

/-- Small row set for the aggregation witness. -/
def rowsC10 : List BRow := [⟨0, 0, 1⟩, ⟨0, 1, 2⟩, ⟨25, 0, 3⟩]

/-! ### Helper lemmas -/

theorem mem_uniqueAux {α : Type} [DecidableEq α] (l : List α) (acc : List α) (x : α) :
    x ∈ uniqueAux acc l ↔ x ∈ acc ∨ x ∈ l := by
  induction l generalizing acc with
  | nil => simp [uniqueAux]
  | cons a l ih =>
    by_cases hmem : a ∈ acc
    · rw [uniqueAux, if_pos hmem, ih]
      constructor
      · rintro (h | h)
        · exact Or.inl h
        · exact Or.inr (List.mem_cons_of_mem a h)
      · rintro (h | h)
        · exact Or.inl h
        · rcases List.mem_cons.mp h with rfl | h
          · exact Or.inl hmem
          · exact Or.inr h
    · rw [uniqueAux, if_neg hmem, ih]
      simp only [List.mem_append, List.mem_singleton, List.mem_cons]
      tauto

theorem mem_uniqueFirst {α : Type} [DecidableEq α] (l : List α) (x : α) :
    x ∈ uniqueFirst l ↔ x ∈ l := by
  rw [uniqueFirst, mem_uniqueAux]
  simp

theorem nodup_uniqueAux {α : Type} [DecidableEq α] (l : List α) (acc : List α)
    (h : acc.Nodup) : (uniqueAux acc l).Nodup := by
  induction l generalizing acc with
  | nil => simpa [uniqueAux]
  | cons a l ih =>
    by_cases hmem : a ∈ acc
    · rw [uniqueAux, if_pos hmem]
      exact ih acc h
    · rw [uniqueAux, if_neg hmem]
      refine ih _ ?_
      rw [List.nodup_append]
      refine ⟨h, List.nodup_singleton a, ?_⟩
      intro x hx hxa
      rw [List.mem_singleton] at hxa
      exact hmem (hxa ▸ hx)

theorem nodup_uniqueFirst {α : Type} [DecidableEq α] (l : List α) :
    (uniqueFirst l).Nodup :=
  nodup_uniqueAux l [] List.nodup_nil

theorem indexOf_append_left {α : Type} [DecidableEq α] (pre l : List α) (x : α)
    (h : x ∈ pre) : (pre ++ l).indexOf x = pre.indexOf x := by
  induction pre with
  | nil => cases h
  | cons p pre ih =>
    by_cases hx : p = x
    · subst hx
      simp
    · have hx2 : x ∈ pre := by
        rcases List.mem_cons.mp h with h1 | h1
        · exact absurd h1.symm hx
        · exact h1
      rw [List.cons_append, List.indexOf_cons_ne _ hx, List.indexOf_cons_ne _ hx, ih hx2]

theorem indexOf_append_right {α : Type} [DecidableEq α] (pre l : List α) (x : α)
    (h : x ∉ pre) : (pre ++ l).indexOf x = pre.length + l.indexOf x := by
  induction pre with
  | nil => simp
  | cons p pre ih =>
    have hpx : p ≠ x := fun e => h (e ▸ List.mem_cons_self p pre)
    rw [List.cons_append, List.indexOf_cons_ne _ hpx,
      ih fun hh => h (List.mem_cons_of_mem p hh)]
    simp [List.length_cons, Nat.succ_add]

theorem pairwise_uniqueAux {α : Type} [DecidableEq α] (L : List α) (l acc pre : List α)
    (hL : L = pre ++ l) (hpre : ∀ x, x ∈ acc ↔ x ∈ pre)
    (hpw : acc.Pairwise fun x y => L.indexOf x < L.indexOf y) :
    (uniqueAux acc l).Pairwise fun x y => L.indexOf x < L.indexOf y := by
  induction l generalizing acc pre with
  | nil => simpa [uniqueAux]
  | cons a l ih =>
    by_cases hmem : a ∈ acc
    · rw [uniqueAux, if_pos hmem]
      refine ih acc (pre ++ [a]) (by rw [hL, List.append_cons]) (fun x => ?_) hpw
      rw [hpre x]
      constructor
      · intro hx
        exact List.mem_append_left _ hx
      · intro hx
        rcases List.mem_append.mp hx with h1 | h1
        · exact h1
        · rw [List.mem_singleton] at h1
          exact h1 ▸ (hpre a).mp hmem
    · rw [uniqueAux, if_neg hmem]
      have hanp : a ∉ pre := fun hh => hmem ((hpre a).mpr hh)
      refine ih (acc ++ [a]) (pre ++ [a]) (by rw [hL, List.append_cons]) (fun x => ?_) ?_
      · simp only [List.mem_append, List.mem_singleton]
        rw [hpre x]
      · rw [List.pairwise_append]
        refine ⟨hpw, List.pairwise_singleton _ a, ?_⟩
        intro x hx y hy
        rw [List.mem_singleton] at hy
        subst hy
        have hxpre : x ∈ pre := (hpre x).mp hx
        have h1 : L.indexOf x < pre.length := by
          rw [hL, indexOf_append_left pre _ x hxpre]
          exact List.indexOf_lt_length.mpr hxpre
        have h2 : L.indexOf y = pre.length := by
          rw [hL, indexOf_append_right pre _ y hanp, List.indexOf_cons_self]
          omega
        omega

/-- Elements of uniqueFirst are ordered by the position of their first
occurrence in the input. -/
theorem uniqueFirst_sorted {α : Type} [DecidableEq α] (l : List α) :
    (uniqueFirst l).Pairwise fun x y => l.indexOf x < l.indexOf y :=
  pairwise_uniqueAux l l [] [] rfl (by simp) List.Pairwise.nil

theorem lookup_enumFrom_map {α : Type} {β : Type} [DecidableEq α]
    (bs : List α) (f : ℕ → β) (k i : ℕ) (h : i < bs.length) (hnd : bs.Nodup) :
    ((List.enumFrom k bs).map fun p => (p.2, f p.1)).lookup (bs.get ⟨i, h⟩) =
      some (f (k + i)) := by
  induction bs generalizing k i with
  | nil => cases h
  | cons a bs ih =>
    cases i with
    | zero =>
      simp [List.enumFrom, List.lookup]
    | succ n =>
      have hn : n < bs.length := by
        simpa [List.length_cons, Nat.succ_lt_succ_iff] using h
      have hget : (a :: bs).get ⟨n + 1, h⟩ = bs.get ⟨n, hn⟩ := rfl
      have hmemtail : bs.get ⟨n, hn⟩ ∈ bs := List.get_mem bs n hn
      have hne : (bs.get ⟨n, hn⟩ == a) = false := by
        rw [beq_eq_false_iff_ne]
        intro he
        exact (List.nodup_cons.mp hnd).1 (he ▸ hmemtail)
      rw [hget]
      simp only [List.enumFrom, List.map_cons, List.lookup, hne]
      rw [ih (k + 1) n hn (List.nodup_cons.mp hnd).2]
      have harith : k + 1 + n = k + (n + 1) := by omega
      rw [harith]

theorem colorOf_get (bs : List Val) (hnd : bs.Nodup) (i : ℕ) (h : i < bs.length) :
    colorOf bs (bs.get ⟨i, h⟩) =
      dark_mode_colors.getD (i % dark_mode_colors.length) "" := by
  unfold colorOf battery_color_map
  rw [show bs.enum = List.enumFrom 0 bs from rfl]
  rw [lookup_enumFrom_map bs (fun j => dark_mode_colors.getD (j % dark_mode_colors.length) "") 0 i h hnd]
  simp

theorem sqDev_nonneg (xs : List ℝ) : 0 ≤ sqDev xs :=
  Finset.sum_nonneg fun _ _ => sq_nonneg _

theorem crossDev_comm (xs ys : List ℝ) : crossDev xs ys = crossDev ys xs := by
  unfold crossDev
  rw [min_comm]
  exact Finset.sum_congr rfl fun i _ => mul_comm _ _

theorem crossDev_self (xs : List ℝ) : crossDev xs xs = sqDev xs := by
  unfold crossDev sqDev
  rw [min_self]
  exact Finset.sum_congr rfl fun i _ => (pow_two _).symm

theorem crossDev_abs_le (xs ys : List ℝ) :
    |crossDev xs ys| ≤ Real.sqrt (sqDev xs) * Real.sqrt (sqDev ys) := by
  have hsub1 : ∑ i ∈ Finset.range (min xs.length ys.length),
      (xs.getD i 0 - colMean xs) ^ 2 ≤ sqDev xs :=
    Finset.sum_le_sum_of_subset_of_nonneg
      (Finset.range_subset.mpr (min_le_left _ _)) fun _ _ _ => sq_nonneg _
  have hsub2 : ∑ i ∈ Finset.range (min xs.length ys.length),
      (ys.getD i 0 - colMean ys) ^ 2 ≤ sqDev ys :=
    Finset.sum_le_sum_of_subset_of_nonneg
      (Finset.range_subset.mpr (min_le_right _ _)) fun _ _ _ => sq_nonneg _
  have hcs := Finset.sum_mul_sq_le_sq_mul_sq
    (Finset.range (min xs.length ys.length))
    (fun i => xs.getD i 0 - colMean xs) (fun i => ys.getD i 0 - colMean ys)
  have h1 : (crossDev xs ys) ^ 2 ≤ sqDev xs * sqDev ys := by
    refine le_trans hcs (mul_le_mul hsub1 hsub2 ?_ (sqDev_nonneg xs))
    exact Finset.sum_nonneg fun _ _ => sq_nonneg _
  calc |crossDev xs ys| = Real.sqrt ((crossDev xs ys) ^ 2) :=
        (Real.sqrt_sq_eq_abs _).symm
    _ ≤ Real.sqrt (sqDev xs * sqDev ys) := Real.sqrt_le_sqrt h1
    _ = Real.sqrt (sqDev xs) * Real.sqrt (sqDev ys) :=
        Real.sqrt_mul (sqDev_nonneg xs) _

theorem pearson_comm (xs ys : List ℝ) : pearson xs ys = pearson ys xs := by
  unfold pearson
  by_cases h : sqDev xs = 0 ∨ sqDev ys = 0
  · rw [if_pos h, if_pos h.symm]
  · rw [if_neg h, if_neg fun hh => h hh.symm, crossDev_comm, mul_comm]

theorem pearson_self (xs : List ℝ) (h : sqDev xs ≠ 0) : pearson xs xs = some 1 := by
  unfold pearson
  rw [if_neg (by tauto), crossDev_self, Real.mul_self_sqrt (sqDev_nonneg xs), div_self h]

theorem pearson_range (xs ys : List ℝ) (r : ℝ) (h : pearson xs ys = some r) :
    -1 ≤ r ∧ r ≤ 1 := by
  unfold pearson at h
  by_cases hc : sqDev xs = 0 ∨ sqDev ys = 0
  · rw [if_pos hc] at h
    cases h
  · rw [if_neg hc] at h
    have hx : 0 < sqDev xs :=
      lt_of_le_of_ne (sqDev_nonneg xs) fun hh => hc (Or.inl hh.symm)
    have hy : 0 < sqDev ys :=
      lt_of_le_of_ne (sqDev_nonneg ys) fun hh => hc (Or.inr hh.symm)
    have hr : r = crossDev xs ys / (Real.sqrt (sqDev xs) * Real.sqrt (sqDev ys)) :=
      (Option.some.inj h).symm
    have hpos : 0 < Real.sqrt (sqDev xs) * Real.sqrt (sqDev ys) :=
      mul_pos (Real.sqrt_pos.mpr hx) (Real.sqrt_pos.mpr hy)
    have habs : |r| ≤ 1 := by
      rw [hr, abs_div, abs_of_pos hpos]
      exact div_le_one_of_le₀ (crossDev_abs_le xs ys) hpos.le
    exact abs_le.mp habs

theorem pearson_none_left (xs ys : List ℝ) (h : sqDev xs = 0) : pearson xs ys = none := by
  unfold pearson
  rw [if_pos (Or.inl h)]

theorem pearson_none_right (xs ys : List ℝ) (h : sqDev ys = 0) : pearson xs ys = none := by
  unfold pearson
  rw [if_pos (Or.inr h)]

theorem corrEntry_eq (cols : List (List ℚ)) (i j : ℕ) :
    corrEntry cols i j =
      (cols[i]?).bind fun x => (cols[j]?).map fun y => pearson (ratCol x) (ratCol y) := by
  unfold corrEntry corrMatrix
  rw [List.getElem?_map]
  cases hx : cols[i]? with
  | none => rfl
  | some x =>
    simp [List.getElem?_map]

theorem map_fst_filterMap_eq_filter {α : Type} {β : Type} (l : List α) (f : α → Option β) :
    ((l.filterMap fun a => (f a).map fun b => (a, b)).map Prod.fst) =
      l.filter fun a => (f a).isSome := by
  induction l with
  | nil => rfl
  | cons a l ih =>
    cases hf : f a <;> simp [List.filterMap_cons, hf, List.filter_cons, ih]

theorem npVar_of_short (xs : List ℚ) (h : xs.length < 2) : npVar xs = 0 := by
  match xs with
  | [] => simp [npVar, npMean]
  | [a] => simp [npVar, npMean]
  | a :: b :: l => simp only [List.length_cons] at h; omega

theorem mem_insertKey (a b : (ℤ × ℤ) × ℚ) (l : List ((ℤ × ℤ) × ℚ)) :
    b ∈ insertKey a l ↔ b = a ∨ b ∈ l := by
  induction l with
  | nil => simp [insertKey]
  | cons c l ih =>
    unfold insertKey
    by_cases h : keyLE a c
    · rw [if_pos h]
      simp [List.mem_cons]
    · rw [if_neg h]
      simp only [List.mem_cons, ih]
      tauto

theorem mem_sortKeys (l : List ((ℤ × ℤ) × ℚ)) (b : (ℤ × ℤ) × ℚ) :
    b ∈ sortKeys l ↔ b ∈ l := by
  induction l with
  | nil => simp [sortKeys]
  | cons a l ih =>
    unfold sortKeys
    rw [mem_insertKey]
    simp [List.mem_cons, ih]

theorem mem_addColumn (df : DataFrame) (name : String) (c : Column) :
    name ∈ (addColumn df name c).map Prod.fst := by
  unfold addColumn
  by_cases h : name ∈ df.map Prod.fst
  · rw [if_pos h]
    have hfst : ((df.map fun p => if p.1 == name then (p.1, c) else p).map Prod.fst) =
        df.map Prod.fst := by
      rw [List.map_map]
      refine List.map_congr_left fun p _ => ?_
      by_cases hp : p.1 = name <;> simp [hp]
    rw [hfst]
    exact h
  · rw [if_neg h]
    simp

theorem plot4_x_has_bin (temp : DataFrame) (var : String)
    (res : (List ((((ℤ × ℤ) × ℚ)) × ℚ)) × DataFrame)
    (h : plot4 temp var = .ok res) : "cycle_bin" ∈ res.2.map Prod.fst := by
  simp only [plot4] at h
  repeat' split at h
  all_goals try exact Except.noConfusion h
  have hres := Except.ok.inj h
  subst hres
  exact mem_addColumn _ _ _

/-! ### The claims -/

/-- C1 (code bug evidence): for the dataset rowsC1 with cycles 0 and 10
and the fixed_count policy of the code (N = 10), the computed step is 1
and every bin edge is at most max_cycle = 10: the last bin upper edge
equals max_cycle instead of exceeding it, pd.cut assigns the row with
cycle = 10 to no bin, and the aggregated output contains only the group
of the cycle-0 row, so the boundary row is dropped.  This happens
whenever the step divides max_cycle, because Python range excludes its
stop value. -/
theorem boundary_row_dropped :
    maxCycle (filterCycles rowsC1) = some 10 ∧
    step_size 10 10 = 1 ∧
    ((bin_edges 10 10).all fun e => decide (e ≤ 10)) = true ∧
    cutBin 10 10 10 = none ∧
    keyedOf (filterCycles rowsC1) 10 10 = [(((0, 1), 0), 1)] ∧
    binAggregate rowsC1 10 = .ok [(((0, 1), 0), groupMean [(((0, 1), (0:ℚ)), (1:ℚ))])] ∧
    groupMean [(((0, 1), (0:ℚ)), (1:ℚ))] = 1 :=
  ⟨by decide, by decide, by decide, by decide, by decide, rfl, by simp [groupMean]⟩

/-- C2 counterexample: for cycles spanning 0 through 97 with N = 10 the
step is 9 as claimed, but the bins are not ten: pd.cut builds the
intervals from edges 0, 9, ..., 99, which form eleven bins. -/
theorem fixed_count_example_counterexample :
    maxCycle (filterCycles rowsC2) = some 97 ∧
    step_size 97 10 = 9 ∧
    ¬(binIntervals 97 10).length = 10 :=
  ⟨by decide, by decide, by decide⟩

/-- C2 (amended): for a dataset whose observed cycles span 0 through 97
and fixed_count binning with N = 10, the step is 9, the bins are exactly
the eleven half-open intervals from [0, 9) through [90, 99), and the row
with cycle 97 is assigned to [90, 99). -/
theorem fixed_count_example_amended :
    maxCycle (filterCycles rowsC2) = some 97 ∧
    step_size 97 10 = 9 ∧
    binIntervals 97 10 =
      [(0, 9), (9, 18), (18, 27), (27, 36), (36, 45), (45, 54),
       (54, 63), (63, 72), (72, 81), (81, 90), (90, 99)] ∧
    (binIntervals 97 10).length = 11 ∧
    cutBin 97 10 97 = some (90, 99) :=
  ⟨by decide, by decide, by decide, by decide, by decide⟩

/-- C3: for every dataset with battery, cycle and SOH columns, series
extraction produces, for each distinct value of the battery column in
first-appearance order, that battery paired with the ordered sequence of
the (cycle, SOH) pairs of its rows; the distinct-battery sequence has no
duplicates, contains exactly the values of the column, and is sorted by
the index of first appearance. -/
theorem series_extraction_spec (df : DataFrame) (bc cc sc : Column)
    (hb : getCol df "battery" = some bc) (hc : getCol df "cycle" = some cc)
    (hs : getCol df "SOH" = some sc) :
    seriesExtract df = .ok ((uniqueFirst bc).map fun b =>
      (b, ((bc.zip (cc.zip sc)).filter fun r => r.1 == b).map Prod.snd)) ∧
    (uniqueFirst bc).Nodup ∧
    (∀ v, v ∈ uniqueFirst bc ↔ v ∈ bc) ∧
    (uniqueFirst bc).Pairwise fun x y => bc.indexOf x < bc.indexOf y := by
  refine ⟨?_, nodup_uniqueFirst bc, fun v => mem_uniqueFirst bc v, uniqueFirst_sorted bc⟩
  unfold seriesExtract
  rw [hb, hc, hs]

/-- Witness for series_extraction_spec at the concrete frame dfC3. -/
theorem series_extraction_spec_witness :
    getCol dfC3 "battery" = some [Val.str "B1", Val.str "B2", Val.str "B1"] ∧
    (uniqueFirst [Val.str "B1", Val.str "B2", Val.str "B1"]).Nodup :=
  ⟨rfl, (series_extraction_spec dfC3 _ _ _ rfl rfl rfl).2.1⟩

/-- C4: the i-th distinct battery (in first-appearance order) receives
the colour dark_mode_colors[i mod palette length], and the
distribution-estimate view colours each battery exactly as the shared
battery colour map does, so the two views agree. -/
theorem battery_color_consistency (df : DataFrame) (bc : Column)
    (hb : getCol df "battery" = some bc) :
    (∀ i (h : i < (uniqueFirst bc).length),
      colorOf (uniqueFirst bc) ((uniqueFirst bc).get ⟨i, h⟩) =
        dark_mode_colors.getD (i % dark_mode_colors.length) "") ∧
    (∀ sc out, getCol df "SOH" = some sc → distEstimate df = .ok out →
      out.map (fun t => (t.battery, t.color)) =
        (uniqueFirst bc).map fun b => (b, colorOf (uniqueFirst bc) b)) := by
  constructor
  · intro i h
    exact colorOf_get (uniqueFirst bc) (nodup_uniqueFirst bc) i h
  · intro sc out hs hout
    unfold distEstimate at hout
    rw [hb, hs] at hout
    have hx : ((uniqueFirst bc).map fun b =>
        (⟨b, colorOf (uniqueFirst bc) b, npMean (sohOf bc sc b),
          npVar (sohOf bc sc b)⟩ : DistTrace)) = out := Except.ok.inj hout
    rw [← hx, List.map_map]
    rfl

/-- Witness for battery_color_consistency at dfC3: the second distinct
battery receives the second palette colour. -/
theorem battery_color_consistency_witness :
    getCol dfC3 "battery" = some [Val.str "B1", Val.str "B2", Val.str "B1"] ∧
    colorOf (uniqueFirst [Val.str "B1", Val.str "B2", Val.str "B1"])
        ((uniqueFirst [Val.str "B1", Val.str "B2", Val.str "B1"]).get ⟨1, by decide⟩) =
      dark_mode_colors.getD (1 % dark_mode_colors.length) "" :=
  ⟨rfl, (battery_color_consistency dfC3 _ rfl).1 1 (by decide)⟩

/-- C5: over a dataset whose four correlation columns are all present
and numeric, the Pearson matrix is 4 by 4, symmetric, has entry 1 on the
diagonal at any column of non-zero variance, has every defined entry in
the interval [-1, 1], and has NaN (none) entries in the row and column
of any zero-variance column. -/
theorem corr_matrix_props (df : DataFrame) (sel : List (String × List ℚ))
    (hsel : corrSelect df = .ok sel) (h4 : sel.map Prod.fst = corrNames) :
    (corrMatrix (sel.map Prod.snd)).length = 4 ∧
    (∀ row ∈ corrMatrix (sel.map Prod.snd), row.length = 4) ∧
    (∀ i j, corrEntry (sel.map Prod.snd) i j = corrEntry (sel.map Prod.snd) j i) ∧
    (∀ i x, (sel.map Prod.snd)[i]? = some x → sqDev (ratCol x) ≠ 0 →
      corrEntry (sel.map Prod.snd) i i = some (some 1)) ∧
    (∀ i j r, corrEntry (sel.map Prod.snd) i j = some (some r) → -1 ≤ r ∧ r ≤ 1) ∧
    (∀ i j x, (sel.map Prod.snd)[i]? = some x → sqDev (ratCol x) = 0 → j < 4 →
      corrEntry (sel.map Prod.snd) i j = some none ∧
      corrEntry (sel.map Prod.snd) j i = some none) := by
  have hlen : (sel.map Prod.snd).length = 4 := by
    rw [List.length_map]
    have h := congrArg List.length h4
    rw [List.length_map] at h
    simpa using h
  refine ⟨?_, ?_, ?_, ?_, ?_, ?_⟩
  · unfold corrMatrix
    rw [List.length_map, hlen]
  · intro row hrow
    unfold corrMatrix at hrow
    obtain ⟨x, hx, rfl⟩ := List.mem_map.mp hrow
    rw [List.length_map, hlen]
  · intro i j
    rw [corrEntry_eq, corrEntry_eq]
    cases hx : (sel.map Prod.snd)[i]? <;> cases hy : (sel.map Prod.snd)[j]? <;>
      simp [pearson_comm]
  · intro i x hx hvar
    rw [corrEntry_eq, hx]
    simp [pearson_self _ hvar]
  · intro i j r h
    rw [corrEntry_eq] at h
    cases hx : (sel.map Prod.snd)[i]? with
    | none => rw [hx] at h; simp at h
    | some x =>
      rw [hx] at h
      cases hy : (sel.map Prod.snd)[j]? with
      | none => rw [hy] at h; simp at h
      | some y =>
        rw [hy] at h
        simp at h
        exact pearson_range _ _ r h
  · intro i j x hx hvar hj
    have hjlt : j < (sel.map Prod.snd).length := by rw [hlen]; exact hj
    have hy := List.getElem?_eq_getElem hjlt
    constructor
    · rw [corrEntry_eq, hx, hy]
      simp [pearson_none_left _ _ hvar]
    · rw [corrEntry_eq, hy, hx]
      simp [pearson_none_right _ _ hvar]

/-- Witness for corr_matrix_props at the concrete frame dfC5. -/
theorem corr_matrix_props_witness :
    corrSelect dfC5 = .ok selC5 ∧ selC5.map Prod.fst = corrNames ∧
    (corrMatrix (selC5.map Prod.snd)).length = 4 :=
  ⟨rfl, rfl, (corr_matrix_props dfC5 selC5 rfl rfl).1⟩

/-- C6 counterexample: on dfC6 the SOH column is present but contains
non-numeric values, yet the correlation selection succeeds with the
three numeric columns only: the offending column is silently dropped
from the matrix and no error of any kind (in particular no
InvalidDataError) is raised. -/
theorem corr_invalid_counterexample :
    corrSelect dfC6 = .ok
      [("voltage_measured", [1, 2]), ("current_measured", [2, 1]),
       ("temperature_measured", [3, 5])] ∧
    getCol dfC6 "SOH" = some [Val.str "bad", Val.str "x"] ∧
    "SOH" ∉ ([(("voltage_measured" : String), [(1:ℚ), 2]), ("current_measured", [2, 1]),
       ("temperature_measured", [3, 5])].map Prod.fst) ∧
    (∀ e, corrSelect dfC6 ≠ .error e) := by
  have h1 : corrSelect dfC6 = .ok
      [("voltage_measured", [1, 2]), ("current_measured", [2, 1]),
       ("temperature_measured", [3, 5])] := rfl
  refine ⟨h1, rfl, by decide, fun e he => ?_⟩
  rw [h1] at he
  exact Except.noConfusion he

/-- C6 (amended): with numeric_only=True, when all four required
columns are present the correlation selection always succeeds: it keeps
exactly the numeric dtype columns among the four, silently dropping any
column with non-numeric values from the matrix instead of failing with
InvalidDataError. -/
theorem corr_numeric_only_drops (df : DataFrame)
    (hall : ∀ n ∈ corrNames, (getCol df n).isSome = true) :
    corrSelect df = .ok (corrKept df) ∧
    (corrKept df).map Prod.fst = corrNames.filter (fun n => (numView df n).isSome) ∧
    (∀ n c, getCol df n = some c → asNums c = none →
      n ∉ (corrKept df).map Prod.fst) ∧
    (∀ e, corrSelect df ≠ .error e) := by
  have hfind : corrNames.find? (fun n => (getCol df n).isNone) = none := by
    rw [List.find?_eq_none]
    intro n hn
    have hsome := hall n hn
    cases hgc : getCol df n with
    | none => rw [hgc] at hsome; simp at hsome
    | some c =>
      intro hcontra
      simp [hgc] at hcontra
  have h1 : corrSelect df = .ok (corrKept df) := by
    unfold corrSelect corrKept
    rw [hfind]
  have h2 : (corrKept df).map Prod.fst =
      corrNames.filter fun n => (numView df n).isSome := by
    unfold corrKept
    exact map_fst_filterMap_eq_filter corrNames (numView df)
  refine ⟨h1, h2, ?_, fun e he => ?_⟩
  · intro n c hgc hnn hmem
    rw [h2, List.mem_filter] at hmem
    have hnone : numView df n = none := by
      unfold numView
      rw [hgc]
      simpa using hnn
    rw [hnone] at hmem
    simp at hmem
  · rw [h1] at he
    exact Except.noConfusion he

/-- Witness for corr_numeric_only_drops at dfC6. -/
theorem corr_numeric_only_drops_witness :
    (∀ n ∈ corrNames, (getCol dfC6 n).isSome = true) ∧
    corrSelect dfC6 = .ok (corrKept dfC6) :=
  ⟨by decide, (corr_numeric_only_drops dfC6 (by decide)).1⟩

/-- C7: a dataset lacking battery, cycle or SOH makes series extraction
fail with an error naming an absent column, with no result returned; in
particular a dataset with battery and cycle but without SOH fails with
the error naming SOH. -/
theorem series_missing_column (df : DataFrame)
    (h : getCol df "battery" = none ∨ getCol df "cycle" = none ∨
         getCol df "SOH" = none) :
    (∃ c, (c = "battery" ∨ c = "cycle" ∨ c = "SOH") ∧ getCol df c = none ∧
      seriesExtract df = .error (.missingColumn c)) ∧
    (getCol df "battery" ≠ none → getCol df "cycle" ≠ none →
      getCol df "SOH" = none →
      seriesExtract df = .error (.missingColumn "SOH")) := by
  cases hbat : getCol df "battery" with
  | none =>
    have he : seriesExtract df = .error (.missingColumn "battery") := by
      unfold seriesExtract
      rw [hbat]
    exact ⟨⟨"battery", Or.inl rfl, hbat, he⟩, fun hb2 _ _ => absurd rfl hb2⟩
  | some bc =>
    cases hcyc : getCol df "cycle" with
    | none =>
      have he : seriesExtract df = .error (.missingColumn "cycle") := by
        unfold seriesExtract
        rw [hbat, hcyc]
      exact ⟨⟨"cycle", Or.inr (Or.inl rfl), hcyc, he⟩, fun _ hc2 _ => absurd rfl hc2⟩
    | some cc =>
      cases hsoh : getCol df "SOH" with
      | none =>
        have he : seriesExtract df = .error (.missingColumn "SOH") := by
          unfold seriesExtract
          rw [hbat, hcyc, hsoh]
        exact ⟨⟨"SOH", Or.inr (Or.inr rfl), hsoh, he⟩, fun _ _ _ => he⟩
      | some sc =>
        rcases h with h | h | h
        · rw [hbat] at h; simp at h
        · rw [hcyc] at h; simp at h
        · rw [hsoh] at h; simp at h

/-- Witness for series_missing_column at dfC7, which lacks SOH. -/
theorem series_missing_column_witness :
    (getCol dfC7 "battery" = none ∨ getCol dfC7 "cycle" = none ∨
      getCol dfC7 "SOH" = none) ∧
    seriesExtract dfC7 = .error (.missingColumn "SOH") :=
  ⟨Or.inr (Or.inr rfl),
   (series_missing_column dfC7 (Or.inr (Or.inr rfl))).2 (by decide) (by decide) rfl⟩

/-- C8 counterexample: on dfC8 battery A has a single SOH observation,
yet the distribution estimate returns a trace for every battery and no
error at all: A gets a degenerate trace of zero variance (whose normal
curve is the undefined division-by-zero-scale pdf) instead of an
InsufficientDataError, and no per-battery error mapping exists. -/
theorem dist_insufficient_counterexample :
    distEstimate dfC8 = .ok
      [⟨Val.str "A", "#1f77b4", npMean [5], npVar [5]⟩,
       ⟨Val.str "B", "#ff7f0e", npMean [1, 3], npVar [1, 3]⟩] ∧
    npVar [(5:ℚ)] = 0 ∧
    npVar [(1:ℚ), 3] = 1 ∧
    (∀ e, distEstimate dfC8 ≠ .error e) := by
  have h1 : distEstimate dfC8 = .ok
      [⟨Val.str "A", "#1f77b4", npMean [5], npVar [5]⟩,
       ⟨Val.str "B", "#ff7f0e", npMean [1, 3], npVar [1, 3]⟩] := rfl
  refine ⟨h1, by simp [npVar, npMean], by norm_num [npVar, npMean], fun e he => ?_⟩
  rw [h1] at he
  exact Except.noConfusion he

/-- C8 (amended): whenever the battery and SOH columns exist the
distribution estimate succeeds with one trace per distinct battery; a
battery with fewer than two SOH observations gets a trace of zero
variance, i.e. an undefined (NaN) normal curve, rather than an
InsufficientDataError; the other batteries are still computed, and no
error value is ever produced for any battery. -/
theorem dist_partial_amended (df : DataFrame) (bc sc : Column)
    (hb : getCol df "battery" = some bc) (hs : getCol df "SOH" = some sc) :
    distEstimate df = .ok ((uniqueFirst bc).map fun b =>
      ⟨b, colorOf (uniqueFirst bc) b, npMean (sohOf bc sc b),
        npVar (sohOf bc sc b)⟩) ∧
    (((uniqueFirst bc).map fun b =>
      (⟨b, colorOf (uniqueFirst bc) b, npMean (sohOf bc sc b),
        npVar (sohOf bc sc b)⟩ : DistTrace)).map DistTrace.battery = uniqueFirst bc) ∧
    (∀ t ∈ (uniqueFirst bc).map fun b =>
        (⟨b, colorOf (uniqueFirst bc) b, npMean (sohOf bc sc b),
          npVar (sohOf bc sc b)⟩ : DistTrace),
      (sohOf bc sc t.battery).length < 2 → t.variance = 0) ∧
    (∀ e, distEstimate df ≠ .error e) := by
  have h1 : distEstimate df = .ok ((uniqueFirst bc).map fun b =>
      ⟨b, colorOf (uniqueFirst bc) b, npMean (sohOf bc sc b),
        npVar (sohOf bc sc b)⟩) := by
    unfold distEstimate
    rw [hb, hs]
  refine ⟨h1, ?_, ?_, fun e he => ?_⟩
  · rw [List.map_map]
    exact List.map_id _
  · intro t ht hlen
    obtain ⟨b, hbmem, rfl⟩ := List.mem_map.mp ht
    exact npVar_of_short _ hlen
  · rw [h1] at he
    exact Except.noConfusion he

/-- Witness for dist_partial_amended at dfC8. -/
theorem dist_partial_amended_witness :
    getCol dfC8 "battery" = some [Val.str "A", Val.str "B", Val.str "B"] ∧
    (∀ e, distEstimate dfC8 ≠ .error e) :=
  ⟨rfl, (dist_partial_amended dfC8 _ _ rfl rfl).2.2.2⟩

/-- C9: a successful run of the whole analysis leaves the loaded frame
untouched: the final df is the input frame, the copy temp still equals
the input, the column names of df are unchanged (so no cycle_bin column
was added to it), and the derived cycle_bin column lives only on the
working frame x built by the binned plots. -/
theorem dataset_unchanged (input : DataFrame) (out : DashOut) (st : DashState)
    (h : runDash input = .ok (out, st)) :
    st.df = input ∧ st.temp = input ∧
    st.df.map Prod.fst = input.map Prod.fst ∧
    (∀ name, getCol st.df name = getCol input name) ∧
    "cycle_bin" ∈ st.x.map Prod.fst := by
  simp only [runDash] at h
  cases h1 : seriesExtract input with
  | error e => rw [h1] at h; exact absurd h (by simp)
  | ok s1 =>
    rw [h1] at h
    cases h2 : corrSelect input with
    | error e => rw [h2] at h; exact absurd h (by simp)
    | ok c2 =>
      rw [h2] at h
      cases h3 : distEstimate input with
      | error e => rw [h3] at h; exact absurd h (by simp)
      | ok d3 =>
        rw [h3] at h
        cases h4 : plot4 input "temperature_measured" with
        | error e => rw [h4] at h; exact absurd h (by simp)
        | ok a4 =>
          rw [h4] at h
          cases h5 : plot4 input "current_measured" with
          | error e => rw [h5] at h; exact absurd h (by simp)
          | ok a5 =>
            rw [h5] at h
            cases h6 : plot4 input "voltage_measured" with
            | error e => rw [h6] at h; exact absurd h (by simp)
            | ok a6 =>
              rw [h6] at h
              have hpair := Except.ok.inj h
              have hst : (⟨input, input, a6.2⟩ : DashState) = st :=
                congrArg Prod.snd hpair
              rw [← hst]
              exact ⟨rfl, rfl, rfl, fun name => rfl,
                plot4_x_has_bin input "voltage_measured" a6 h6⟩

/-- Witness for dataset_unchanged: the run on the full concrete frame
dfC9 succeeds and its final state is inspected through the theorem. -/
theorem dataset_unchanged_witness :
    runDash dfC9 = .ok (((runDash dfC9).toOption.get (by rfl)).1,
      ((runDash dfC9).toOption.get (by rfl)).2) ∧
    ((runDash dfC9).toOption.get (by rfl)).2.df = dfC9 ∧
    "cycle_bin" ∈ ((runDash dfC9).toOption.get (by rfl)).2.x.map Prod.fst := by
  refine ⟨rfl, ?_, ?_⟩
  · exact (dataset_unchanged dfC9 _ _ rfl).1
  · exact (dataset_unchanged dfC9 _ _ rfl).2.2.2.2

/-- C10: the binned aggregation emits one row per observed (bin, time)
group only: every output row has a nonempty group of keyed input rows
with its key, its value is the arithmetic mean of that group, and a bin
interval under which no input row falls contributes no output row. -/
theorem binagg_nonempty_groups (rows : List BRow) (num_bins m : ℤ)
    (hm : maxCycle (filterCycles rows) = some m) :
    binAggregate rows num_bins = .ok (aggRows (filterCycles rows) m num_bins) ∧
    (∀ p ∈ aggRows (filterCycles rows) m num_bins,
      ((keyedOf (filterCycles rows) m num_bins).filter fun q => q.1 == p.1) ≠ [] ∧
      p.2 = groupMean ((keyedOf (filterCycles rows) m num_bins).filter
        fun q => q.1 == p.1) ∧
      ∃ q ∈ keyedOf (filterCycles rows) m num_bins, q.1 = p.1) ∧
    (∀ b, (∀ q ∈ keyedOf (filterCycles rows) m num_bins, q.1.1 ≠ b) →
      ∀ p ∈ aggRows (filterCycles rows) m num_bins, p.1.1 ≠ b) := by
  have h1 : binAggregate rows num_bins =
      .ok (aggRows (filterCycles rows) m num_bins) := by
    unfold binAggregate
    rw [hm]
  have hmain : ∀ p ∈ aggRows (filterCycles rows) m num_bins,
      ((keyedOf (filterCycles rows) m num_bins).filter fun q => q.1 == p.1) ≠ [] ∧
      p.2 = groupMean ((keyedOf (filterCycles rows) m num_bins).filter
        fun q => q.1 == p.1) ∧
      ∃ q ∈ keyedOf (filterCycles rows) m num_bins, q.1 = p.1 := by
    intro p hp
    unfold aggRows at hp
    obtain ⟨k, hk, rfl⟩ := List.mem_map.mp hp
    rw [mem_sortKeys, mem_uniqueFirst] at hk
    obtain ⟨q, hq, hqk⟩ := List.mem_map.mp hk
    refine ⟨?_, rfl, ⟨q, hq, hqk⟩⟩
    intro hnil
    have hqin : q ∈ (keyedOf (filterCycles rows) m num_bins).filter
        fun r => r.1 == k := by
      rw [List.mem_filter]
      exact ⟨hq, by simp [hqk]⟩
    rw [hnil] at hqin
    cases hqin
  refine ⟨h1, hmain, ?_⟩
  intro b hb p hp heq
  obtain ⟨-, -, q, hq, hqk⟩ := hmain p hp
  exact hb q hq (by rw [hqk, heq])

/-- Witness for binagg_nonempty_groups at the concrete rows rowsC10. -/
theorem binagg_nonempty_groups_witness :
    maxCycle (filterCycles rowsC10) = some 25 ∧
    binAggregate rowsC10 10 = .ok (aggRows (filterCycles rowsC10) 25 10) :=
  ⟨by decide, (binagg_nonempty_groups rowsC10 10 25 (by decide)).1⟩
